import Mathlib

/-!
Verification of the earnings-call panel pipeline (shallow embedding).

Each section embeds one part of the repository in Lean:
* `Manifest` — src/py/manifest.py (create_manifest, write_manifest, read_latest_manifest)
* `Panel` — src/py/03_table_II_summary_stats.py (panel construction, shares, thresholds)
* `Coerce` — src/py/03_table_II_summary_stats.py (macro_id coercion and range assertion)
* `Peer` — src/py/06_table_IVB_spillover.py (compute_peer_shares, multi-tech restriction)
* `Loop` — src/py/06/07 main regression loops (per-specification try/except)
* `Quality` — scripts/quality_score.py (score_stata, score_manuscript)
* `Dynamics` — src/py/07_table_IVC_dynamics.py (q_to_num, tenure_q)

Machine floats of the source are modelled as exact rationals; pandas
missing values (NaN) as `Option`; DataFrames as lists of row structures.
-/

namespace PanelPipeline

/-- A JSON value, as produced by Python json.dumps / json.loads.
Numbers are modelled as integers (all numbers appearing in the
pipeline run manifests are integers). -/
inductive Json where
  | null : Json
  | bool (b : Bool) : Json
  | num (n : Int) : Json
  | str (s : String) : Json
  | arr (xs : List Json) : Json
  | obj (fields : List (String × Json)) : Json
deriving BEq, Repr

/-- Look up a key in a JSON-object field list (first match),
modelling Python dict access on a dict built from this field list. -/
def lookupJ (m : List (String × Json)) (k : String) : Option Json :=
  (m.find? (fun p => p.1 = k)).map (fun p => p.2)

/-- Final component of a POSIX path, as Python pathlib.Path(...).name:
the part after the last "/". -/
def pathName (s : String) : String :=
  (s.splitOn "/").getLastD s

/-- Split a character list at every occurrence of the separator, like
Python str.split with a one-character separator. -/
def splitOnChar (c : Char) : List Char → List (List Char)
  | [] => [[]]
  | x :: xs =>
      match splitOnChar c xs with
      | [] => if x = c then [[], []] else [[x]]
      | h :: t => if x = c then [] :: h :: t else (x :: h) :: t

/-- pathlib.Path(...).stem on a bare file name: the name with the last
dot-suffix removed; a name with no dot, or whose only dot is the leading
character (dotfile), is returned unchanged. -/
def pathStem (s : String) : String :=
  match splitOnChar '.' s.data with
  | [] => s
  | [_] => s
  | [] :: [_] => s
  | parts => String.mk (List.intercalate ['.'] parts.dropLast)

/-- manifest.create_manifest: builds the manifest dict in source order.
The datetime.now() timestamp is passed in as the string `now`. -/
def create_manifest (script_path : String) (seed : Int)
    (input_files output_files : List String)
    (row_counts : List (String × Int))
    (parameters : Option (List (String × Json)))
    (now : String) : List (String × Json) :=
  [ ("script", Json.str (pathName script_path)),
    ("timestamp", Json.str now),
    ("seed", Json.num seed),
    ("input_files", Json.arr (input_files.map Json.str)),
    ("output_files", Json.arr (output_files.map Json.str)),
    ("row_counts", Json.obj (row_counts.map (fun p => (p.1, Json.num p.2)))),
    ("parameters", Json.obj (parameters.getD [])) ]

/-- C5: create_manifest returns a dict whose seed, input_files, output_files
and row_counts entries equal the corresponding arguments, whose script entry
is the final name component of script_path, whose parameters entry is the
given dict (empty when None), and whose key set is exactly the seven fixed
keys — no other data-dependent field beyond the timestamp. -/
theorem create_manifest_fields (script_path : String) (seed : Int)
    (input_files output_files : List String)
    (row_counts : List (String × Int))
    (parameters : Option (List (String × Json))) (now : String) :
    let m := create_manifest script_path seed input_files output_files
      row_counts parameters now
    lookupJ m "seed" = some (Json.num seed) ∧
    lookupJ m "script" = some (Json.str (pathName script_path)) ∧
    lookupJ m "input_files" = some (Json.arr (input_files.map Json.str)) ∧
    lookupJ m "output_files" = some (Json.arr (output_files.map Json.str)) ∧
    lookupJ m "row_counts"
      = some (Json.obj (row_counts.map (fun p => (p.1, Json.num p.2)))) ∧
    lookupJ m "parameters" = some (Json.obj (parameters.getD [])) ∧
    (parameters = none → lookupJ m "parameters" = some (Json.obj [])) ∧
    m.map Prod.fst = ["script", "timestamp", "seed", "input_files",
      "output_files", "row_counts", "parameters"] := by
  refine ⟨rfl, rfl, rfl, rfl, rfl, rfl, ?_, rfl⟩
  intro h
  subst h
  rfl

/-- A file in the results/runs/ directory: name, modification time, and the
JSON value its text parses to.  write_text stores json.dumps of the manifest
and json.loads re-reads it; the manifest being JSON-serializable (premise of
the round-trip claim), the serialize/parse composite is the identity, so the
store holds the JSON value itself. -/
structure FsEntry where
  name : String
  mtime : Nat
  content : Json
deriving Repr

/-- Whether a file name matches the glob pattern "{s}_*.json" used by
read_latest_manifest.  Files are direct children of runs_dir, so the
path-separator restriction of glob * is automatic. -/
def globMatch (s name : String) : Bool :=
  (s ++ "_").data.isPrefixOf name.data
    && ".json".data.isSuffixOf name.data
    && decide ((s ++ "_").length + ".json".length ≤ name.length)

/-- manifest.write_manifest: writes the manifest under the name
"{stem of manifest's script field}_{timestamp}.json", overwriting any file of
that name; returns the new directory state and the file name.  The strftime
timestamp is modelled as the decimal form of the tick counter `now` (like the
real "%Y%m%d_%H%M%S" string, it contains no path separator).  Python raises a
KeyError when the manifest has no "script" string, modelled as `none`. -/
def write_manifest (fs : List FsEntry) (m : List (String × Json)) (now : Nat) :
    Option (List FsEntry × String) :=
  match lookupJ m "script" with
  | some (Json.str scr) =>
      let fname := pathStem scr ++ "_" ++ toString now ++ ".json"
      some (fs.filter (fun e => e.name ≠ fname) ++ [⟨fname, now, Json.obj m⟩],
        fname)
  | _ => none

/-- Python sorted(..., key=mtime): a stable ascending sort by mtime. -/
def sortByMtime (l : List FsEntry) : List FsEntry :=
  l.insertionSort (fun a b => a.mtime ≤ b.mtime)

/-- manifest.read_latest_manifest: files matching "{script_name}_*.json",
sorted by modification time, last one parsed. -/
def read_latest_manifest (fs : List FsEntry) (script_name : String) :
    Option Json :=
  let hits := fs.filter (fun e => globMatch script_name e.name)
  ((sortByMtime hits).getLast?).map (fun e => e.content)

theorem getLast?_orderedInsert (r : FsEntry → FsEntry → Prop) [DecidableRel r]
    (a : FsEntry) (s : List FsEntry) (h : ∃ y ∈ s, r a y) :
    (s.orderedInsert r a).getLast? = s.getLast? := by
  induction s with
  | nil => obtain ⟨y, hy, _⟩ := h; cases hy
  | cons b t ih =>
    rw [List.orderedInsert]
    by_cases hab : r a b
    · rw [if_pos hab, List.getLast?_cons_cons]
    · rw [if_neg hab]
      obtain ⟨y, hy, hr⟩ := h
      rcases List.mem_cons.mp hy with h1 | h2
      · exact absurd hr (h1 ▸ hab)
      · have ht : t ≠ [] := by rintro rfl; cases h2
        obtain ⟨c, cs, hcs⟩ := List.exists_cons_of_ne_nil ht
        have hrec := ih ⟨y, h2, hr⟩
        have hne : ∃ d ds, t.orderedInsert r a = d :: ds := by
          rw [hcs, List.orderedInsert]
          split
          · exact ⟨_, _, rfl⟩
          · exact ⟨_, _, rfl⟩
        obtain ⟨d, ds, hds⟩ := hne
        rw [hds, List.getLast?_cons_cons, ← hds, hrec, hcs,
          List.getLast?_cons_cons]

theorem getLast?_sortByMtime_append (l : List FsEntry) (x : FsEntry)
    (h : ∀ e ∈ l, e.mtime ≤ x.mtime) :
    (sortByMtime (l ++ [x])).getLast? = some x := by
  induction l with
  | nil => rfl
  | cons a t ih =>
    have hx : x ∈ (t ++ [x]).insertionSort (fun a b => a.mtime ≤ b.mtime) :=
      (List.mem_insertionSort _).mpr (by simp)
    show ((a :: (t ++ [x])).insertionSort _).getLast? = some x
    rw [List.insertionSort,
      getLast?_orderedInsert _ _ _ ⟨x, hx, h a (List.mem_cons_self a t)⟩]
    exact ih (fun e he => h e (List.mem_cons_of_mem _ he))

theorem globMatch_written (S ts : String) :
    globMatch S (S ++ "_" ++ ts ++ ".json") = true := by
  have h1 : (S ++ "_").data <+: (S ++ "_" ++ ts ++ ".json").data :=
    ⟨ts.data ++ ".json".data, by simp [String.data_append]⟩
  have h2 : ".json".data <:+ (S ++ "_" ++ ts ++ ".json").data := by
    have base := List.suffix_append (S.data ++ '_' :: ts.data) ".json".data
    simpa [String.data_append] using base
  have h3 : (S ++ "_").length + ".json".length
      ≤ (S ++ "_" ++ ts ++ ".json").length := by
    simp only [String.length_append]
    omega
  simp only [globMatch, Bool.and_eq_true, List.isPrefixOf_iff_prefix,
    List.isSuffixOf_iff_suffix, decide_eq_true_eq]
  exact ⟨⟨h1, h2⟩, h3⟩

/-- C4: manifest round-trip.  If write_manifest stores a JSON-serializable
manifest whose script entry has stem S, and no other manifest file matching S
in runs_dir has a later modification time, then read_latest_manifest for S
returns exactly the written manifest value. -/
theorem write_read_manifest_roundtrip (fs : List FsEntry)
    (m : List (String × Json)) (now : Nat) (scr : String)
    (hscr : lookupJ m "script" = some (Json.str scr))
    (fs' : List FsEntry) (fname : String)
    (hw : write_manifest fs m now = some (fs', fname))
    (hmt : ∀ e ∈ fs, globMatch (pathStem scr) e.name = true → e.mtime ≤ now) :
    read_latest_manifest fs' (pathStem scr) = some (Json.obj m) := by
  set S := pathStem scr with hS
  have hw2 := hw
  simp only [write_manifest, hscr, Option.some.injEq, Prod.mk.injEq] at hw2
  have hw' : fs' = fs.filter
        (fun e => e.name ≠ S ++ "_" ++ toString now ++ ".json")
      ++ [⟨S ++ "_" ++ toString now ++ ".json", now, Json.obj m⟩] :=
    hw2.1.symm
  simp only [read_latest_manifest, hw', List.filter_append]
  have hour : (List.filter (fun e => globMatch S e.name)
      ([⟨S ++ "_" ++ toString now ++ ".json", now, Json.obj m⟩] : List FsEntry))
      = [⟨S ++ "_" ++ toString now ++ ".json", now, Json.obj m⟩] := by
    simp [List.filter, globMatch_written]
  rw [hour, getLast?_sortByMtime_append]
  · rfl
  · intro e he
    have he1 : e ∈ fs.filter
        (fun e => e.name ≠ S ++ "_" ++ toString now ++ ".json") :=
      List.mem_of_mem_filter he
    have he2 : globMatch S e.name = true := by
      have := List.of_mem_filter he
      simpa using this
    exact hmt e (List.mem_of_mem_filter he1) he2

/-- Witness for the manifest round-trip at a concrete store: one older
matching file, then a write at tick 2, then a read. -/
theorem write_read_manifest_roundtrip_witness :
    ∃ p : List FsEntry × String,
      write_manifest [⟨"test_script_1.json", 1, Json.null⟩]
        [("script", Json.str "test_script.py"), ("seed", Json.num 42)] 2
        = some p ∧
      read_latest_manifest p.1 (pathStem "test_script.py")
        = some (Json.obj
            [("script", Json.str "test_script.py"), ("seed", Json.num 42)]) := by
  refine ⟨⟨[⟨"test_script_1.json", 1, Json.null⟩,
      ⟨"test_script_2.json", 2, Json.obj
        [("script", Json.str "test_script.py"), ("seed", Json.num 42)]⟩],
      "test_script_2.json"⟩, rfl, ?_⟩
  exact write_read_manifest_roundtrip
    [⟨"test_script_1.json", 1, Json.null⟩]
    [("script", Json.str "test_script.py"), ("seed", Json.num 42)]
    2 "test_script.py" rfl
    [⟨"test_script_1.json", 1, Json.null⟩,
      ⟨"test_script_2.json", 2, Json.obj
        [("script", Json.str "test_script.py"), ("seed", Json.num 42)]⟩]
    "test_script_2.json" rfl (by decide)

/-! ## Panel construction (03_table_II_summary_stats.py, Panels B-E) -/

/-- A cleaned causal-snippet row: the DataFrame cs after the key-field
dropna and the gvkey / macro_id integer coercion (source line 160), i.e.
the input of the dedup / pivot steps.  The macro category column macro_id
is called catId here; sic and loc only feed the row-preserving firm
metadata merge and are omitted. -/
structure Snip where
  gvkey : Int
  technology : String
  dateQ : String
  side : String
  input_id : String
  catId : Int
deriving DecidableEq, Repr

/-- The dedup key columns (gvkey, technology, dateQ, side, input_id, macro_id). -/
def dedupKey (r : Snip) : Int × String × String × String × String × Int :=
  (r.gvkey, r.technology, r.dateQ, r.side, r.input_id, r.catId)

/-- Helper for drop_duplicates: keep a row when its key was not seen yet. -/
def dedupSnipsAux (seen : List (Int × String × String × String × String × Int)) :
    List Snip → List Snip
  | [] => []
  | x :: xs =>
      if dedupKey x ∈ seen then dedupSnipsAux seen xs
      else x :: dedupSnipsAux (dedupKey x :: seen) xs

/-- drop_duplicates over the six dedup-key columns, keeping the first
occurrence of each key (source lines 160-162). -/
def dedupSnips (l : List Snip) : List Snip :=
  dedupSnipsAux [] l

/-- The wide-pivot index: (gvkey, technology, dateQ, side). -/
abbrev Key4 := Int × String × String × String

/-- Wide row key of a snippet. -/
def key4 (r : Snip) : Key4 :=
  (r.gvkey, r.technology, r.dateQ, r.side)

/-- A firm–technology–quarter triple (gvkey, technology, dateQ). -/
abbrev Key3 := Int × String × String

/-- groupby size pivoted wide: n{c}, the number of deduplicated snippets
with this wide key and macro_id = c (fill_value 0 when absent). -/
def nCount (rows : List Snip) (k : Key4) (c : Int) : Nat :=
  ((dedupSnips rows).filter
    (fun r => key4 r = k ∧ r.catId = c)).length

/-- N_side = n1 + n2 + n3 + n4 + n5 (source line 196). -/
def nSide (rows : List Snip) (k : Key4) : Nat :=
  nCount rows k 1 + nCount rows k 2 + nCount rows k 3
    + nCount rows k 4 + nCount rows k 5

/-- share{c} = n{c} / N_side (source line 198), as exact rationals. -/
def share (rows : List Snip) (k : Key4) (c : Int) : ℚ :=
  (nCount rows k c : ℚ) / (nSide rows k : ℚ)

/-- The wide table's index: the distinct (gvkey, technology, dateQ, side)
keys of the deduplicated snippets — pivot_table yields one row per
distinct index key. -/
def wideKeys (rows : List Snip) : List Key4 :=
  ((dedupSnips rows).map key4).dedup

/-- Wide rows surviving the >=3 spans-per-side threshold (source line 202). -/
def threshKeys (rows : List Snip) : List Key4 :=
  (wideKeys rows).filter (fun k => 3 ≤ nSide rows k)

/-- Triples of the cause-side rows after the threshold. -/
def causeTriples (rows : List Snip) : List Key3 :=
  ((threshKeys rows).filter (fun k => k.2.2.2 = "cause")).map
    (fun k => (k.1, k.2.1, k.2.2.1))

/-- Triples of the effect-side rows after the threshold. -/
def effectTriples (rows : List Snip) : List Key3 :=
  ((threshKeys rows).filter (fun k => k.2.2.2 = "effect")).map
    (fun k => (k.1, k.2.1, k.2.2.1))

/-- The joint panel: inner join of the cause and effect sides on
(gvkey, technology, dateQ) (source lines 224-229).  The later firm
metadata merge is validated m:1 and asserted row-preserving, so these
triples are exactly the rows of panel_ikt.csv. -/
def panelTriples (rows : List Snip) : List Key3 :=
  (causeTriples rows).filter (fun t => t ∈ effectTriples rows)

theorem causeTriples_nodup (rows : List Snip) : (causeTriples rows).Nodup := by
  have h1 : (wideKeys rows).Nodup := List.nodup_dedup _
  have h2 : (threshKeys rows).Nodup := h1.filter _
  have h3 : ((threshKeys rows).filter (fun k => k.2.2.2 = "cause")).Nodup :=
    h2.filter _
  refine h3.map_on ?_
  intro x hx y hy hxy
  have hxs : x.2.2.2 = "cause" := by
    have := List.of_mem_filter hx
    simpa using this
  have hys : y.2.2.2 = "cause" := by
    have := List.of_mem_filter hy
    simpa using this
  obtain ⟨x1, x2, x3, x4⟩ := x
  obtain ⟨y1, y2, y3, y4⟩ := y
  simp only [Prod.mk.injEq] at hxy hxs hys ⊢
  exact ⟨hxy.1, hxy.2.1, hxy.2.2, hxs.trans hys.symm⟩

/-- C3: the panel written to panel_ikt.csv has at most one row per
(gvkey, technology, dateQ) triple — the wide pivot is indexed by
(gvkey, technology, dateQ, side), each side restricts to a fixed side
value, and the 1:1-validated inner join leaves one row per shared triple. -/
theorem panelTriples_nodup (rows : List Snip) : (panelTriples rows).Nodup :=
  (causeTriples_nodup rows).filter _

theorem mem_panelTriples (rows : List Snip) (t : Key3)
    (ht : t ∈ panelTriples rows) :
    (t.1, t.2.1, t.2.2, "cause") ∈ threshKeys rows ∧
    (t.1, t.2.1, t.2.2, "effect") ∈ threshKeys rows := by
  obtain ⟨t1, t2, t3⟩ := t
  have hc : ((t1, t2, t3) : Key3) ∈ causeTriples rows :=
    List.mem_of_mem_filter ht
  have he : ((t1, t2, t3) : Key3) ∈ effectTriples rows := by
    have := List.of_mem_filter ht
    simpa using this
  constructor
  · obtain ⟨k, hk, hkt⟩ := List.mem_map.mp hc
    have hks : k.2.2.2 = "cause" := by
      have := List.of_mem_filter hk
      simpa using this
    have hkm : k ∈ threshKeys rows := List.mem_of_mem_filter hk
    obtain ⟨k1, k2, k3, k4⟩ := k
    simp only [Prod.mk.injEq] at hkt hks
    obtain ⟨rfl, rfl, rfl⟩ := hkt
    rw [hks] at hkm
    exact hkm
  · obtain ⟨k, hk, hkt⟩ := List.mem_map.mp he
    have hks : k.2.2.2 = "effect" := by
      have := List.of_mem_filter hk
      simpa using this
    have hkm : k ∈ threshKeys rows := List.mem_of_mem_filter hk
    obtain ⟨k1, k2, k3, k4⟩ := k
    simp only [Prod.mk.injEq] at hkt hks
    obtain ⟨rfl, rfl, rfl⟩ := hkt
    rw [hks] at hkm
    exact hkm

theorem share_sum_of_thresh (rows : List Snip) (k : Key4)
    (hk : k ∈ threshKeys rows) :
    share rows k 1 + share rows k 2 + share rows k 3
      + share rows k 4 + share rows k 5 = 1 := by
  have h3 : 3 ≤ nSide rows k := by
    have := List.of_mem_filter hk
    simpa using this
  have hne : (nSide rows k : ℚ) ≠ 0 := by
    have : (0 : ℚ) < (nSide rows k : ℚ) := by
      exact_mod_cast Nat.lt_of_lt_of_le (by norm_num) h3
    exact ne_of_gt this
  simp only [share, div_add_div_same]
  rw [show ((nCount rows k 1 : ℚ) + nCount rows k 2 + nCount rows k 3
      + nCount rows k 4 + nCount rows k 5) = (nSide rows k : ℚ) by
    push_cast [nSide]
    ring]
  exact div_self hne

/-- C1: every retained panel row's five cause shares sum to exactly 1 and
its five effect shares sum to exactly 1 — shares are n_c / N_side with
N_side the sum of the five counts, and only side-rows with N_side >= 3
(hence N_side > 0) survive the threshold. -/
theorem panel_share_sums (rows : List Snip) (t : Key3)
    (ht : t ∈ panelTriples rows) :
    share rows (t.1, t.2.1, t.2.2, "cause") 1
      + share rows (t.1, t.2.1, t.2.2, "cause") 2
      + share rows (t.1, t.2.1, t.2.2, "cause") 3
      + share rows (t.1, t.2.1, t.2.2, "cause") 4
      + share rows (t.1, t.2.1, t.2.2, "cause") 5 = 1 ∧
    share rows (t.1, t.2.1, t.2.2, "effect") 1
      + share rows (t.1, t.2.1, t.2.2, "effect") 2
      + share rows (t.1, t.2.1, t.2.2, "effect") 3
      + share rows (t.1, t.2.1, t.2.2, "effect") 4
      + share rows (t.1, t.2.1, t.2.2, "effect") 5 = 1 := by
  obtain ⟨hc, he⟩ := mem_panelTriples rows t ht
  exact ⟨share_sum_of_thresh rows _ hc, share_sum_of_thresh rows _ he⟩

/-- A concrete snippet sample: one firm-technology-quarter with three cause
spans and three effect spans. -/
def sampleSnips : List Snip :=
  [ ⟨1, "AI", "2020q1", "cause", "a", 1⟩,
    ⟨1, "AI", "2020q1", "cause", "b", 1⟩,
    ⟨1, "AI", "2020q1", "cause", "c", 2⟩,
    ⟨1, "AI", "2020q1", "effect", "d", 3⟩,
    ⟨1, "AI", "2020q1", "effect", "e", 3⟩,
    ⟨1, "AI", "2020q1", "effect", "f", 3⟩ ]

/-- Witness for the share-sum invariant on the concrete sample. -/
theorem panel_share_sums_witness :
    ((1, "AI", "2020q1") : Key3) ∈ panelTriples sampleSnips ∧
    (share sampleSnips (1, "AI", "2020q1", "cause") 1
      + share sampleSnips (1, "AI", "2020q1", "cause") 2
      + share sampleSnips (1, "AI", "2020q1", "cause") 3
      + share sampleSnips (1, "AI", "2020q1", "cause") 4
      + share sampleSnips (1, "AI", "2020q1", "cause") 5 = 1 ∧
    share sampleSnips (1, "AI", "2020q1", "effect") 1
      + share sampleSnips (1, "AI", "2020q1", "effect") 2
      + share sampleSnips (1, "AI", "2020q1", "effect") 3
      + share sampleSnips (1, "AI", "2020q1", "effect") 4
      + share sampleSnips (1, "AI", "2020q1", "effect") 5 = 1) :=
  ⟨by decide, panel_share_sums sampleSnips (1, "AI", "2020q1") (by decide)⟩

/-! ## macro_id coercion and range assertion (03_table_II, lines 121-133) -/

/-- A raw causal-snippet row as it stands after pd.to_numeric(...,
errors="coerce") on gvkey and macro_id: each holds the parsed rational
number, or none for a NaN produced from a non-numeric value.  (Rows already
passed the earlier dropna on the key identifier columns.) -/
structure RawSnip where
  gvkeyNum : Option ℚ
  catIdNum : Option ℚ
deriving DecidableEq, Repr

/-- numpy float-to-int cast: truncation toward zero. -/
def truncQ (q : ℚ) : Int :=
  if q < 0 then ⌈q⌉ else ⌊q⌋

/-- The numeric macro_id values of the rows that survive the
dropna(subset=["gvkey", "macro_id"]) after coercion (source lines 121-126). -/
def remainingCatIds (rows : List RawSnip) : List ℚ :=
  rows.filterMap (fun r => if r.gvkeyNum.isSome then r.catIdNum else none)

/-- The macro_id column after .astype(int) (source line 128). -/
def castCatIds (rows : List RawSnip) : List Int :=
  (remainingCatIds rows).map truncQ

/-- Whether the range assertion cs["macro_id"].isin(range(1, 6)).all()
(source line 131) raises an AssertionError. -/
def catIdAssertRaises (rows : List RawSnip) : Bool :=
  ! (castCatIds rows).all (fun m => 1 ≤ m ∧ m ≤ 5)

/-- C6 as stated: the assertion raises iff some remaining row's numeric
macro_id lies outside {1,2,3,4,5}. -/
def catIdClaim (rows : List RawSnip) : Prop :=
  catIdAssertRaises rows = true ↔
    ∃ q ∈ remainingCatIds rows,
      q ≠ 1 ∧ q ≠ 2 ∧ q ≠ 3 ∧ q ≠ 4 ∧ q ≠ 5

/-- Counterexample to C6 as stated: a remaining row with the numeric
macro_id 5/2 is outside {1,2,3,4,5}, yet the int cast truncates it to 2 and
the assertion passes. -/
theorem catIdClaim_counterexample :
    ¬ catIdClaim [⟨some 1, some (5/2)⟩] := by
  intro h
  have h2 : catIdAssertRaises [⟨some 1, some (5/2)⟩] = true := by
    refine h.mpr ⟨5/2, ?_, by norm_num, by norm_num, by norm_num, by norm_num,
      by norm_num⟩
    simp [remainingCatIds]
  have h3 : catIdAssertRaises [⟨some 1, some (5/2)⟩] = false := by
    have : truncQ (5/2) = 2 := by
      rw [truncQ, if_neg (by norm_num)]
      norm_num [Int.floor_eq_iff]
    simp [catIdAssertRaises, castCatIds, remainingCatIds, this]
  rw [h3] at h2
  cases h2

/-- C6 amended: the assertion raises iff some remaining row's numeric
macro_id, truncated toward zero by the int cast, is outside {1,...,5}
(fractional values in [1,6) therefore pass). -/
theorem catIdAssert_iff (rows : List RawSnip) :
    catIdAssertRaises rows = true ↔
      ∃ q ∈ remainingCatIds rows, ¬ (1 ≤ truncQ q ∧ truncQ q ≤ 5) := by
  rw [catIdAssertRaises]
  cases hb : (castCatIds rows).all (fun m => decide (1 ≤ m ∧ m ≤ 5)) with
  | false =>
      simp only [Bool.not_false]
      simp only [castCatIds, List.all_eq_false, List.mem_map,
        decide_eq_true_eq] at hb
      obtain ⟨m, ⟨q, hq, rfl⟩, hm⟩ := hb
      exact iff_of_true trivial ⟨q, hq, by simpa using hm⟩
  | true =>
      simp only [Bool.not_true]
      simp only [castCatIds, List.all_eq_true, List.mem_map,
        decide_eq_true_eq] at hb
      refine iff_of_false (by simp) ?_
      rintro ⟨q, hq, hout⟩
      exact hout (hb (truncQ q) ⟨q, hq, rfl⟩)

/-! ## Leave-one-out peer shares (06_table_IVB_spillover.py, lines 45-117) -/

/-- A panel_ikt row as loaded by 06_table_IVB_spillover.py: firm identifier,
technology, quarter, and the five cause and five effect share columns.
A value is none where the CSV field is missing (NaN). -/
structure PObs where
  gvkey : Int
  technology : String
  dateQ : String
  shareCause : Fin 5 → Option ℚ
  shareEffect : Fin 5 → Option ℚ

instance : DecidableEq PObs := fun a b =>
  decidable_of_iff
    (a.gvkey = b.gvkey ∧ a.technology = b.technology ∧ a.dateQ = b.dateQ
      ∧ a.shareCause = b.shareCause ∧ a.shareEffect = b.shareEffect)
    (by cases a; cases b; simp)

/-- The firm's rows: groupby("gvkey") group of the observation's firm. -/
def firmRows (data : List PObs) (g : Int) : List PObs :=
  data.filter (fun x => x.gvkey = g)

/-- The own-technology rows: groupby(["gvkey", "technology"]) group. -/
def ownRows (data : List PObs) (g : Int) (t : String) : List PObs :=
  data.filter (fun x => x.gvkey = g ∧ x.technology = t)

/-- The firm's rows in its other technologies. -/
def otherRows (data : List PObs) (g : Int) (t : String) : List PObs :=
  data.filter (fun x => x.gvkey = g ∧ x.technology ≠ t)

/-- pandas Series.sum over a share column: missing values are skipped. -/
def colSum (l : List PObs) (col : PObs → Option ℚ) : ℚ :=
  (l.filterMap col).sum

/-- pandas Series.count over a share column: number of non-missing values. -/
def colCount (l : List PObs) (col : PObs → Option ℚ) : Nat :=
  (l.filterMap col).length

/-- The leave-one-out denominator firm_n − own_n of compute_peer_shares. -/
def peerDenom (data : List PObs) (col : PObs → Option ℚ) (o : PObs) : Int :=
  (colCount (firmRows data o.gvkey) col : Int)
    - (colCount (ownRows data o.gvkey o.technology) col : Int)

/-- compute_peer_shares for one observation and one share column:
(firm-level sum − own-technology sum) / (firm-level count − own-technology
count), with a zero denominator replaced by NaN
(source lines 81-104; identical in explorations/category_specific_spillover.py). -/
def peerShare (data : List PObs) (col : PObs → Option ℚ) (o : PObs) :
    Option ℚ :=
  let num := colSum (firmRows data o.gvkey) col
    - colSum (ownRows data o.gvkey o.technology) col
  let den := peerDenom data col o
  if den = 0 then none else some (num / (den : ℚ))

theorem filterMap_perm_split (l : List PObs) (col : PObs → Option ℚ)
    (p q : PObs → Prop) [DecidablePred p] [DecidablePred q] :
    ((l.filter (fun x => p x)).filterMap col).Perm
      (((l.filter (fun x => p x ∧ q x)).filterMap col)
        ++ ((l.filter (fun x => p x ∧ ¬ q x)).filterMap col)) := by
  have base := List.filter_append_perm (fun x => decide (q x))
    (l.filter (fun x => p x))
  have h1 : (l.filter (fun x => p x)).filter (fun x => decide (q x))
      = l.filter (fun x => p x ∧ q x) := by
    rw [List.filter_filter]
    apply List.filter_congr
    intro x _
    simp [Bool.and_comm]
  have h2 : (l.filter (fun x => p x)).filter (fun x => !decide (q x))
      = l.filter (fun x => p x ∧ ¬ q x) := by
    rw [List.filter_filter]
    apply List.filter_congr
    intro x _
    simp [Bool.and_comm]
  have h3 := (base.filterMap col).symm
  rw [List.filterMap_append, h1, h2] at h3
  exact h3

theorem colSum_split (data : List PObs) (col : PObs → Option ℚ)
    (g : Int) (t : String) :
    colSum (firmRows data g) col
      = colSum (ownRows data g t) col + colSum (otherRows data g t) col := by
  have h := filterMap_perm_split data col (fun x => x.gvkey = g)
    (fun x => x.technology = t)
  have hs := h.sum_eq
  rw [List.sum_append] at hs
  exact hs

theorem colCount_split (data : List PObs) (col : PObs → Option ℚ)
    (g : Int) (t : String) :
    colCount (firmRows data g) col
      = colCount (ownRows data g t) col + colCount (otherRows data g t) col := by
  have h := filterMap_perm_split data col (fun x => x.gvkey = g)
    (fun x => x.technology = t)
  have hs := h.length_eq
  rw [List.length_append] at hs
  exact hs

theorem colCount_eq_length (l : List PObs) (col : PObs → Option ℚ)
    (h : ∀ x ∈ l, (col x).isSome) : colCount l col = l.length := by
  induction l with
  | nil => rfl
  | cons a t ih =>
    have ha := h a (List.mem_cons_self a t)
    obtain ⟨v, hv⟩ := Option.isSome_iff_exists.mp ha
    simp only [colCount, List.filterMap_cons, hv, List.length_cons]
    have := ih (fun x hx => h x (List.mem_cons_of_mem a hx))
    simp only [colCount] at this
    rw [this]

/-- C2: for every observation, the peer share in a category equals the
(sum over all the firm's observations minus the own-technology sum) divided
by (count of all the firm's observations minus the own-technology count),
which is the mean of the share across the firm's observations in its other
technologies, and is NaN exactly when the firm has no observation in any
other technology. -/
theorem peerShare_eq_loo_mean (data : List PObs) (col : PObs → Option ℚ)
    (o : PObs) (ho : o ∈ data) (hpres : ∀ x ∈ data, (col x).isSome) :
    peerShare data col o
      = (if otherRows data o.gvkey o.technology = [] then none
         else some
          (((otherRows data o.gvkey o.technology).filterMap col).sum
            / ((otherRows data o.gvkey o.technology).length : ℚ))) := by
  have hsum := colSum_split data col o.gvkey o.technology
  have hcnt := colCount_split data col o.gvkey o.technology
  have hlen : colCount (otherRows data o.gvkey o.technology) col
      = (otherRows data o.gvkey o.technology).length :=
    colCount_eq_length _ col
      (fun x hx => hpres x (List.mem_of_mem_filter hx))
  have hden : peerDenom data col o
      = ((otherRows data o.gvkey o.technology).length : Int) := by
    rw [peerDenom, hcnt, ← hlen]
    push_cast
    ring
  rw [peerShare]
  simp only [hden, hsum]
  by_cases hemp : otherRows data o.gvkey o.technology = []
  · have hlen0 : ((otherRows data o.gvkey o.technology).length : Int) = 0 := by
      rw [hemp]
      rfl
    rw [if_pos hlen0, if_pos hemp]
  · have hlenne : ((otherRows data o.gvkey o.technology).length : Int) ≠ 0 :=
      fun hc => hemp (List.length_eq_zero.mp (by exact_mod_cast hc))
    rw [if_neg hlenne, if_neg hemp]
    have harith : colSum (ownRows data o.gvkey o.technology) col
          + colSum (otherRows data o.gvkey o.technology) col
          - colSum (ownRows data o.gvkey o.technology) col
        = colSum (otherRows data o.gvkey o.technology) col := by ring
    rw [harith]
    simp [colSum]

/-- Witness for the leave-one-out mean: a firm with one AI and one EV
observation; the AI row's peer share is its EV share 2/5. -/
theorem peerShare_eq_loo_mean_witness :
    peerShare
      [ ⟨1, "AI", "2020q1", fun _ => some (1/5), fun _ => some (1/5)⟩,
        ⟨1, "EV", "2020q1", fun _ => some (2/5), fun _ => some (1/5)⟩ ]
      (fun x => x.shareCause 0)
      ⟨1, "AI", "2020q1", fun _ => some (1/5), fun _ => some (1/5)⟩
      = (if otherRows
            [ ⟨1, "AI", "2020q1", fun _ => some (1/5), fun _ => some (1/5)⟩,
              ⟨1, "EV", "2020q1", fun _ => some (2/5), fun _ => some (1/5)⟩ ]
            1 "AI" = [] then none
         else some
          (((otherRows
            [ ⟨1, "AI", "2020q1", fun _ => some (1/5), fun _ => some (1/5)⟩,
              ⟨1, "EV", "2020q1", fun _ => some (2/5), fun _ => some (1/5)⟩ ]
            1 "AI").filterMap (fun x => x.shareCause 0)).sum
            / ((otherRows
            [ ⟨1, "AI", "2020q1", fun _ => some (1/5), fun _ => some (1/5)⟩,
              ⟨1, "EV", "2020q1", fun _ => some (2/5), fun _ => some (1/5)⟩ ]
            1 "AI").length : ℚ))) :=
  peerShare_eq_loo_mean _ (fun x => x.shareCause 0) _
    (List.mem_cons_self _ _) (by decide)

/-- Number of distinct technologies a firm has anywhere in the panel
(techs_per_firm, source line 65). -/
def techsPerFirm (panel : List PObs) (g : Int) : Nat :=
  ((panel.filter (fun r => r.gvkey = g)).map
    (fun r => r.technology)).dedup.length

/-- The multi-tech sample: observations of firms with at least two distinct
technologies all-time (source lines 66-67). -/
def multiTechPanel (panel : List PObs) : List PObs :=
  panel.filter (fun r => 2 ≤ techsPerFirm panel r.gvkey)

/-- dropna over the ten peer columns computed on the multi-tech sample
(source lines 113-115). -/
def dropnaPeers (df : List PObs) : List PObs :=
  df.filter (fun o =>
    (∀ c : Fin 5, (peerShare df (fun x => x.shareCause c) o).isSome)
    ∧ (∀ c : Fin 5, (peerShare df (fun x => x.shareEffect c) o).isSome))

theorem exists_other_tech (panel : List PObs) (o : PObs)
    (ho : o ∈ multiTechPanel panel) :
    ∃ y ∈ multiTechPanel panel,
      y.gvkey = o.gvkey ∧ y.technology ≠ o.technology := by
  obtain ⟨hop, hcond⟩ := List.mem_filter.mp ho
  have h2 : 2 ≤ techsPerFirm panel o.gvkey := by simpa using hcond
  set L := (panel.filter (fun r => r.gvkey = o.gvkey)).map
    (fun r => r.technology) with hL
  have hnd : L.dedup.Nodup := List.nodup_dedup L
  have hlen : 2 ≤ L.dedup.length := h2
  obtain ⟨t1, rest1, hrest1⟩ :=
    List.exists_cons_of_ne_nil (l := L.dedup) (by
      intro hnil
      rw [hnil] at hlen
      simp at hlen)
  have hlen2 : 1 ≤ rest1.length := by
    have := hlen
    rw [hrest1] at this
    simpa using this
  obtain ⟨t2, rest2, hrest2⟩ :=
    List.exists_cons_of_ne_nil (l := rest1) (by
      intro hnil
      rw [hnil] at hlen2
      simp at hlen2)
  have h12 : t1 ≠ t2 := by
    have := hnd
    rw [hrest1, hrest2] at this
    exact fun he => (List.nodup_cons.mp this).1 (he ▸ List.mem_cons_self t2 rest2)
  have hmem : ∀ t ∈ L.dedup, ∃ y ∈ multiTechPanel panel,
      y.gvkey = o.gvkey ∧ y.technology = t := by
    intro t htd
    have htL : t ∈ L := List.mem_dedup.mp htd
    obtain ⟨r, hr, hrt⟩ := List.mem_map.mp htL
    have hrg : r.gvkey = o.gvkey := by
      have := List.of_mem_filter hr
      simpa using this
    have hrp : r ∈ panel := List.mem_of_mem_filter hr
    refine ⟨r, List.mem_filter.mpr ⟨hrp, ?_⟩, hrg, hrt⟩
    simpa [techsPerFirm, hrg] using hcond
  by_cases hto : t1 = o.technology
  · obtain ⟨y, hy, hyg, hyt⟩ := hmem t2 (by rw [hrest1, hrest2]; simp)
    exact ⟨y, hy, hyg, by rw [hyt]; exact fun he => h12 (hto.trans he.symm)⟩
  · obtain ⟨y, hy, hyg, hyt⟩ := hmem t1 (by rw [hrest1]; simp)
    exact ⟨y, hy, hyg, by rw [hyt]; exact hto⟩

theorem peerDenom_pos_aux (panel : List PObs) (o : PObs)
    (ho : o ∈ multiTechPanel panel) (col : PObs → Option ℚ)
    (hcol : ∀ x ∈ multiTechPanel panel, (col x).isSome) :
    1 ≤ peerDenom (multiTechPanel panel) col o ∧
      (peerShare (multiTechPanel panel) col o).isSome := by
  set df := multiTechPanel panel with hdf
  obtain ⟨y, hy, hyg, hyt⟩ := exists_other_tech panel o ho
  have hyo : y ∈ otherRows df o.gvkey o.technology :=
    List.mem_filter.mpr ⟨hy, by simp [hyg, hyt]⟩
  have hlen1 : 1 ≤ (otherRows df o.gvkey o.technology).length :=
    List.length_pos.mpr (List.ne_nil_of_mem hyo)
  have hcnt : colCount (otherRows df o.gvkey o.technology) col
      = (otherRows df o.gvkey o.technology).length :=
    colCount_eq_length _ col
      (fun x hx => hcol x (List.mem_of_mem_filter hx))
  have hsplit := colCount_split df col o.gvkey o.technology
  have hden : peerDenom df col o
      = ((otherRows df o.gvkey o.technology).length : Int) := by
    rw [peerDenom, hsplit, ← hcnt]
    push_cast
    ring
  constructor
  · rw [hden]
    exact_mod_cast hlen1
  · rw [peerShare]
    simp only [hden]
    rw [if_neg (by exact_mod_cast Nat.pos_iff_ne_zero.mp hlen1)]
    rfl

/-- C9: with every panel row's share columns non-missing, once the sample is
restricted to firms with at least two distinct technologies, the
leave-one-out denominator is at least 1 for every observation and share
column, the zero-denominator guard never fires (every peer share is
non-missing), and the subsequent dropna over the peer columns removes no
rows. -/
theorem multiTech_peer_denominators (panel : List PObs)
    (hpres : ∀ x ∈ panel, (∀ c : Fin 5, (x.shareCause c).isSome)
      ∧ (∀ c : Fin 5, (x.shareEffect c).isSome)) :
    (∀ o ∈ multiTechPanel panel, ∀ c : Fin 5,
      (1 ≤ peerDenom (multiTechPanel panel) (fun x => x.shareCause c) o
        ∧ (peerShare (multiTechPanel panel)
            (fun x => x.shareCause c) o).isSome)
      ∧ (1 ≤ peerDenom (multiTechPanel panel) (fun x => x.shareEffect c) o
        ∧ (peerShare (multiTechPanel panel)
            (fun x => x.shareEffect c) o).isSome)) ∧
    dropnaPeers (multiTechPanel panel) = multiTechPanel panel := by
  have hkey : ∀ o ∈ multiTechPanel panel, ∀ c : Fin 5,
      (1 ≤ peerDenom (multiTechPanel panel) (fun x => x.shareCause c) o
        ∧ (peerShare (multiTechPanel panel)
            (fun x => x.shareCause c) o).isSome)
      ∧ (1 ≤ peerDenom (multiTechPanel panel) (fun x => x.shareEffect c) o
        ∧ (peerShare (multiTechPanel panel)
            (fun x => x.shareEffect c) o).isSome) := by
    intro o ho c
    constructor
    · exact peerDenom_pos_aux panel o ho _
        (fun x hx => (hpres x (List.mem_of_mem_filter hx)).1 c)
    · exact peerDenom_pos_aux panel o ho _
        (fun x hx => (hpres x (List.mem_of_mem_filter hx)).2 c)
  refine ⟨hkey, ?_⟩
  rw [dropnaPeers, List.filter_eq_self]
  intro o ho
  simp only [decide_eq_true_eq]
  exact ⟨fun c => (hkey o ho c).1.2, fun c => (hkey o ho c).2.2⟩

/-- Witness for the multi-tech denominator safety on a concrete two-row,
two-technology panel. -/
theorem multiTech_peer_denominators_witness :
    (∀ o ∈ multiTechPanel
        [ ⟨1, "AI", "2020q1", fun _ => some (1/5), fun _ => some (1/5)⟩,
          ⟨1, "EV", "2020q1", fun _ => some (2/5), fun _ => some (1/5)⟩ ],
      ∀ c : Fin 5,
      (1 ≤ peerDenom (multiTechPanel
          [ ⟨1, "AI", "2020q1", fun _ => some (1/5), fun _ => some (1/5)⟩,
            ⟨1, "EV", "2020q1", fun _ => some (2/5), fun _ => some (1/5)⟩ ])
          (fun x => x.shareCause c) o
        ∧ (peerShare (multiTechPanel
          [ ⟨1, "AI", "2020q1", fun _ => some (1/5), fun _ => some (1/5)⟩,
            ⟨1, "EV", "2020q1", fun _ => some (2/5), fun _ => some (1/5)⟩ ])
            (fun x => x.shareCause c) o).isSome)
      ∧ (1 ≤ peerDenom (multiTechPanel
          [ ⟨1, "AI", "2020q1", fun _ => some (1/5), fun _ => some (1/5)⟩,
            ⟨1, "EV", "2020q1", fun _ => some (2/5), fun _ => some (1/5)⟩ ])
          (fun x => x.shareEffect c) o
        ∧ (peerShare (multiTechPanel
          [ ⟨1, "AI", "2020q1", fun _ => some (1/5), fun _ => some (1/5)⟩,
            ⟨1, "EV", "2020q1", fun _ => some (2/5), fun _ => some (1/5)⟩ ])
            (fun x => x.shareEffect c) o).isSome)) ∧
    dropnaPeers (multiTechPanel
        [ ⟨1, "AI", "2020q1", fun _ => some (1/5), fun _ => some (1/5)⟩,
          ⟨1, "EV", "2020q1", fun _ => some (2/5), fun _ => some (1/5)⟩ ])
      = multiTechPanel
        [ ⟨1, "AI", "2020q1", fun _ => some (1/5), fun _ => some (1/5)⟩,
          ⟨1, "EV", "2020q1", fun _ => some (2/5), fun _ => some (1/5)⟩ ] :=
  multiTech_peer_denominators
    [ ⟨1, "AI", "2020q1", fun _ => some (1/5), fun _ => some (1/5)⟩,
      ⟨1, "EV", "2020q1", fun _ => some (2/5), fun _ => some (1/5)⟩ ]
    (by decide)

/-! ## Per-specification regression loops
(06_table_IVB_spillover.py lines 343-365, 07_table_IVC_dynamics.py
lines 395-414): for each specification the call to run_hdfe_ols sits in a
try/except that prints FAILED and stores None, then the loop continues. -/

/-- One pass of the main table loop: run each specification; a raised
exception (Except.error) is caught and recorded as none, and the loop
proceeds with the remaining specifications. -/
def runSpecs {α β : Type} (specs : List α) (run : α → Except String β) :
    List (α × Option β) :=
  specs.map (fun s => (s, (run s).toOption))

/-- The regression runner of the C7 counterexample: specification 1 raises,
specification 2 returns its input times ten. -/
def failingRun : Nat → Except String Nat :=
  fun n => if n = 1 then Except.error "singular matrix" else Except.ok (n * 10)

/-- Counterexample to C7 as stated: specification 1 raises inside the
runner, yet the loop still executes specification 2 (its result 20 is
computed and recorded) — a later step of the same run executes after the
error, and the loop itself finishes normally. -/
theorem runSpecs_counterexample :
    failingRun 1 = Except.error "singular matrix" ∧
    runSpecs [1, 2] failingRun = [(1, none), (2, some 20)] := by
  constructor <;> rfl

/-- C7 amended: an error raised by run_hdfe_ols for one specification is
caught by the per-specification try/except, recorded as a missing result,
and every specification of the loop is still processed exactly once in
order, each with the outcome of its own run; there is no retry.  (Errors
raised outside these try/except blocks do propagate to process exit.) -/
theorem runSpecs_processes_all {α β : Type} (specs : List α)
    (run : α → Except String β) :
    (runSpecs specs run).map Prod.fst = specs ∧
    (∀ p ∈ runSpecs specs run, p.2 = (run p.1).toOption) := by
  constructor
  · rw [runSpecs, List.map_map]
    exact List.map_id specs
  · intro p hp
    obtain ⟨s, _, rfl⟩ := List.mem_map.mp hp
    rfl

/-- Witness for the amended C7 on the concrete failing runner. -/
theorem runSpecs_processes_all_witness :
    (runSpecs [1, 2] failingRun).map Prod.fst = [1, 2] ∧
    ((1, (none : Option Nat)) ∈ runSpecs [1, 2] failingRun →
      (none : Option Nat) = (failingRun 1).toOption) :=
  ⟨(runSpecs_processes_all [1, 2] failingRun).1,
    fun h => (runSpecs_processes_all [1, 2] failingRun).2 (1, none) h⟩

/-! ## Quarter labels and tenure (07_table_IVC_dynamics.py, lines 68-90) -/

/-- Python int() on the digit strings produced by splitting a quarter label:
accumulate decimal digits; none on an empty or non-digit string.  (int() also
accepts signs and whitespace, which never occur in dateQ labels.) -/
def digitsValAux : List Char → Nat → Option Nat
  | [], acc => some acc
  | c :: cs, acc =>
      if c.isDigit then digitsValAux cs (acc * 10 + (c.toNat - 48)) else none

/-- Parse a non-empty all-digit character list as a natural number. -/
def parseNat (l : List Char) : Option Nat :=
  match l with
  | [] => none
  | _ :: _ => digitsValAux l 0

/-- q_to_num (source lines 68-71): split the label on "q" into exactly two
parts (the unpacking y, qn = q.split("q") raises otherwise, modelled as
none), parse both as integers, and return year*4 + quarter. -/
def q_to_num (s : String) : Option Int :=
  match splitOnChar 'q' s.data with
  | [y, qn] =>
      match parseNat y, parseNat qn with
      | some yv, some qv => some ((yv : Int) * 4 + (qv : Int))
      | _, _ => none
  | _ => none

/-- The decimal digit character for n (valid for n ≤ 9). -/
def digitChar (n : Nat) : Char :=
  Char.ofNat (48 + n)

/-- The four decimal digit characters of a four-digit year. -/
def yearChars (y : Nat) : List Char :=
  [digitChar (y / 1000 % 10), digitChar (y / 100 % 10),
    digitChar (y / 10 % 10), digitChar (y % 10)]

/-- A dateQ label of the form YYYYqQ: four year digits, the letter q, one
quarter digit between 1 and 4. -/
def WFLabel (s : String) (y q : Nat) : Prop :=
  s.data = yearChars y ++ 'q' :: [digitChar q]
    ∧ 1000 ≤ y ∧ y ≤ 9999 ∧ 1 ≤ q ∧ q ≤ 4

theorem digitChar_isDigit (n : Nat) (h : n ≤ 9) :
    (digitChar n).isDigit = true := by
  interval_cases n <;> decide

theorem digitChar_toNat (n : Nat) (h : n ≤ 9) :
    (digitChar n).toNat = 48 + n := by
  interval_cases n <;> decide

theorem digitChar_ne_q (n : Nat) (h : n ≤ 9) : digitChar n ≠ 'q' := by
  interval_cases n <;> decide

theorem digitChar_lt_iff (a b : Nat) (ha : a ≤ 9) (hb : b ≤ 9) :
    (digitChar a < digitChar b) ↔ a < b := by
  interval_cases a <;> interval_cases b <;> decide

theorem digitChar_eq_iff (a b : Nat) (ha : a ≤ 9) (hb : b ≤ 9) :
    (digitChar a = digitChar b) ↔ a = b := by
  interval_cases a <;> interval_cases b <;> decide

theorem parseNat_yearChars (y : Nat) (hy : y ≤ 9999) :
    parseNat (yearChars y) = some y := by
  have h1 : y / 1000 % 10 ≤ 9 := by omega
  have h2 : y / 100 % 10 ≤ 9 := by omega
  have h3 : y / 10 % 10 ≤ 9 := by omega
  have h4 : y % 10 ≤ 9 := by omega
  simp only [yearChars, parseNat, digitsValAux,
    digitChar_isDigit _ h1, digitChar_isDigit _ h2, digitChar_isDigit _ h3,
    digitChar_isDigit _ h4, digitChar_toNat _ h1, digitChar_toNat _ h2,
    digitChar_toNat _ h3, digitChar_toNat _ h4, if_true, Option.some.injEq]
  omega

theorem parseNat_digit (q : Nat) (hq : q ≤ 9) :
    parseNat [digitChar q] = some q := by
  simp only [parseNat, digitsValAux, digitChar_isDigit _ hq,
    digitChar_toNat _ hq, if_true, Option.some.injEq]
  omega

theorem splitOnChar_label (y q : Nat) (hy : y ≤ 9999) (hq : q ≤ 9) :
    splitOnChar 'q' (yearChars y ++ 'q' :: [digitChar q])
      = [yearChars y, [digitChar q]] := by
  have h1 := digitChar_ne_q (y / 1000 % 10) (by omega)
  have h2 := digitChar_ne_q (y / 100 % 10) (by omega)
  have h3 := digitChar_ne_q (y / 10 % 10) (by omega)
  have h4 := digitChar_ne_q (y % 10) (by omega)
  have h5 := digitChar_ne_q q hq
  simp [yearChars, splitOnChar, h1, h2, h3, h4, h5]

/-- The q_to_num value of a well-formed label is year*4 + quarter. -/
theorem q_to_num_wf (s : String) (y q : Nat) (h : WFLabel s y q) :
    q_to_num s = some ((y : Int) * 4 + (q : Int)) := by
  obtain ⟨hd, hy1, hy2, hq1, hq2⟩ := h
  rw [q_to_num, hd, splitOnChar_label y q hy2 (by omega)]
  simp [parseNat_yearChars y hy2, parseNat_digit q (by omega)]

theorem lex_cons_iff' (a b : Char) (l1 l2 : List Char) :
    List.Lex (· < ·) (a :: l1) (b :: l2)
      ↔ a < b ∨ (a = b ∧ List.Lex (· < ·) l1 l2) := by
  constructor
  · intro h
    cases h with
    | cons h' => exact Or.inr ⟨rfl, h'⟩
    | rel h' => exact Or.inl h'
  · rintro (h | ⟨rfl, h⟩)
    · exact List.Lex.rel h
    · exact List.Lex.cons h

/-- Lexicographic order on two well-formed labels coincides with
chronological order on (year, quarter). -/
theorem label_lt_iff (s t : String) (y1 q1 y2 q2 : Nat)
    (h1 : WFLabel s y1 q1) (h2 : WFLabel t y2 q2) :
    s < t ↔ (y1 < y2 ∨ (y1 = y2 ∧ q1 < q2)) := by
  obtain ⟨hd1, hy1a, hy1b, hq1a, hq1b⟩ := h1
  obtain ⟨hd2, hy2a, hy2b, hq2a, hq2b⟩ := h2
  rw [String.lt_iff_toList_lt]
  show List.Lex (fun c1 c2 : Char => c1 < c2) s.data t.data ↔ _
  rw [hd1, hd2]
  simp only [yearChars, List.cons_append, List.nil_append]
  rw [lex_cons_iff', lex_cons_iff', lex_cons_iff', lex_cons_iff',
    lex_cons_iff', lex_cons_iff']
  rw [digitChar_lt_iff _ _ (by omega) (by omega),
    digitChar_eq_iff _ _ (by omega) (by omega),
    digitChar_lt_iff _ _ (by omega) (by omega),
    digitChar_eq_iff _ _ (by omega) (by omega),
    digitChar_lt_iff _ _ (by omega) (by omega),
    digitChar_eq_iff _ _ (by omega) (by omega),
    digitChar_lt_iff _ _ (by omega) (by omega),
    digitChar_eq_iff _ _ (by omega) (by omega),
    digitChar_lt_iff _ _ (by omega : q1 ≤ 9) (by omega : q2 ≤ 9),
    digitChar_eq_iff _ _ (by omega : q1 ≤ 9) (by omega : q2 ≤ 9)]
  have hnil : ¬ List.Lex (fun c1 c2 : Char => c1 < c2) [] [] :=
    List.Lex.not_nil_right _ _
  have hqq : ¬ ('q' < 'q') := by decide
  simp only [hqq, false_or, eq_self_iff_true, true_and, hnil, and_false,
    or_false]
  have e1 : y1 = 1000 * (y1 / 1000 % 10) + 100 * (y1 / 100 % 10)
      + 10 * (y1 / 10 % 10) + y1 % 10 := by omega
  have e2 : y2 = 1000 * (y2 / 1000 % 10) + 100 * (y2 / 100 % 10)
      + 10 * (y2 / 10 % 10) + y2 % 10 := by omega
  omega

/-- pandas Series.min on the dateQ strings of one group: fold of the
binary minimum under Python string comparison. -/
def strMin : List String → Option String
  | [] => none
  | x :: xs => some (xs.foldl (fun a b => if b < a then b else a) x)

/-- tenure_q (source lines 85-90): q_num of the observation minus q_num of
the group's minimal dateQ. -/
def tenure_q (pair : List String) (s : String) : Option Int :=
  match strMin pair, q_to_num s with
  | some m, some qn =>
      match q_to_num m with
      | some fm => some (qn - fm)
      | none => none
  | _, _ => none

theorem strMin_fold_spec (xs : List String) (x : String) :
    (xs.foldl (fun a b => if b < a then b else a) x = x
        ∨ xs.foldl (fun a b => if b < a then b else a) x ∈ xs)
      ∧ xs.foldl (fun a b => if b < a then b else a) x ≤ x
      ∧ ∀ u ∈ xs, xs.foldl (fun a b => if b < a then b else a) x ≤ u := by
  induction xs generalizing x with
  | nil => exact ⟨Or.inl rfl, le_refl x, by simp⟩
  | cons b rest ih =>
    simp only [List.foldl_cons]
    by_cases hbx : b < x
    · rw [if_pos hbx]
      obtain ⟨hmem, hle, hall⟩ := ih b
      refine ⟨?_, le_trans hle (le_of_lt hbx), ?_⟩
      · rcases hmem with h | h
        · exact Or.inr (by rw [h]; exact List.mem_cons_self b rest)
        · exact Or.inr (List.mem_cons_of_mem b h)
      · intro u hu
        rcases List.mem_cons.mp hu with rfl | hu2
        · exact hle
        · exact hall u hu2
    · rw [if_neg hbx]
      obtain ⟨hmem, hle, hall⟩ := ih x
      refine ⟨?_, hle, ?_⟩
      · rcases hmem with h | h
        · exact Or.inl h
        · exact Or.inr (List.mem_cons_of_mem b h)
      · intro u hu
        rcases List.mem_cons.mp hu with rfl | hu2
        · exact le_trans hle (not_lt.mp hbx)
        · exact hall u hu2

theorem strMin_spec (pair : List String) (hne : pair ≠ []) :
    ∃ m, strMin pair = some m ∧ m ∈ pair ∧ ∀ u ∈ pair, m ≤ u := by
  obtain ⟨x, xs, rfl⟩ := List.exists_cons_of_ne_nil hne
  obtain ⟨hmem, hle, hall⟩ := strMin_fold_spec xs x
  refine ⟨xs.foldl (fun a b => if b < a then b else a) x, rfl, ?_, ?_⟩
  · rcases hmem with h | h
    · exact (by rw [h]; exact List.mem_cons_self x xs)
    · exact List.mem_cons_of_mem x h
  · intro u hu
    rcases List.mem_cons.mp hu with rfl | hu2
    · exact hle
    · exact hall u hu2

/-- C10: for a firm-technology group whose dateQ labels all have the form
YYYYqQ, q_to_num maps each label to year*4 + quarter; this value respects
chronological order strictly; and the computed tenure_q (q_num minus the
q_num of the group's minimal dateQ) is a non-negative integer that is 0
exactly for observations in the group's chronologically first quarter. -/
theorem tenure_q_spec (pair : List String) (f : String → Nat × Nat)
    (hwf : ∀ u ∈ pair, WFLabel u (f u).1 (f u).2)
    (s : String) (hs : s ∈ pair) :
    q_to_num s = some (((f s).1 : Int) * 4 + ((f s).2 : Int)) ∧
    (∀ u ∈ pair, ∀ v ∈ pair,
      (((f u).1 < (f v).1 ∨ ((f u).1 = (f v).1 ∧ (f u).2 < (f v).2))
        ↔ (f u).1 * 4 + (f u).2 < (f v).1 * 4 + (f v).2)) ∧
    ∃ t : Int, tenure_q pair s = some t ∧ 0 ≤ t ∧
      (t = 0 ↔ ∀ u ∈ pair,
        (f s).1 < (f u).1 ∨ ((f s).1 = (f u).1 ∧ (f s).2 ≤ (f u).2)) := by
  have hnum : ∀ u ∈ pair, q_to_num u
      = some (((f u).1 : Int) * 4 + ((f u).2 : Int)) :=
    fun u hu => q_to_num_wf u _ _ (hwf u hu)
  refine ⟨hnum s hs, ?_, ?_⟩
  · intro u hu v hv
    obtain ⟨_, _, _, hqu1, hqu2⟩ := hwf u hu
    obtain ⟨_, _, _, hqv1, hqv2⟩ := hwf v hv
    omega
  · obtain ⟨m, hm, hmmem, hmall⟩ := strMin_spec pair (List.ne_nil_of_mem hs)
    have hwm := hwf m hmmem
    have hws := hwf s hs
    have hmle : ∀ u ∈ pair,
        (f m).1 < (f u).1 ∨ ((f m).1 = (f u).1 ∧ (f m).2 ≤ (f u).2) := by
      intro u hu
      have := hmall u hu
      have hnlt : ¬ (u < m) := not_lt.mpr this
      rw [label_lt_iff u m (f u).1 (f u).2 (f m).1 (f m).2
        (hwf u hu) hwm] at hnlt
      omega
    refine ⟨((f s).1 : Int) * 4 + (f s).2 - (((f m).1 : Int) * 4 + (f m).2),
      ?_, ?_, ?_⟩
    · simp only [tenure_q, hm, hnum s hs, hnum m hmmem]
    · have := hmle s hs
      obtain ⟨_, _, _, hq1, hq2⟩ := hws
      obtain ⟨_, _, _, hmq1, hmq2⟩ := hwm
      omega
    · constructor
      · intro ht u hu
        have hmu := hmle u hu
        obtain ⟨_, _, _, hq1, hq2⟩ := hws
        obtain ⟨_, _, _, hmq1, hmq2⟩ := hwm
        obtain ⟨_, _, _, huq1, huq2⟩ := hwf u hu
        omega
      · intro hall
        have h1 := hall m hmmem
        have h2 := hmle s hs
        obtain ⟨_, _, _, hq1, hq2⟩ := hws
        obtain ⟨_, _, _, hmq1, hmq2⟩ := hwm
        omega

/-- The (year, quarter) reading of a label, for concrete witnesses. -/
def labelVal (s : String) : Nat × Nat :=
  match splitOnChar 'q' s.data with
  | [y, qn] => ((parseNat y).getD 0, (parseNat qn).getD 0)
  | _ => (0, 0)

/-- Witness for tenure_q on the concrete group 2021q3, 2020q4, 2021q1:
the 2021q3 observation has tenure 3 over the minimum 2020q4. -/
theorem tenure_q_spec_witness :
    q_to_num "2021q3" = some ((2021 : Int) * 4 + (3 : Int)) ∧
    (∀ u ∈ ["2021q3", "2020q4", "2021q1"],
      ∀ v ∈ ["2021q3", "2020q4", "2021q1"],
      (((labelVal u).1 < (labelVal v).1
          ∨ ((labelVal u).1 = (labelVal v).1 ∧ (labelVal u).2 < (labelVal v).2))
        ↔ (labelVal u).1 * 4 + (labelVal u).2
            < (labelVal v).1 * 4 + (labelVal v).2)) ∧
    ∃ t : Int, tenure_q ["2021q3", "2020q4", "2021q1"] "2021q3" = some t ∧
      0 ≤ t ∧
      (t = 0 ↔ ∀ u ∈ ["2021q3", "2020q4", "2021q1"],
        2021 < (labelVal u).1
          ∨ (2021 = (labelVal u).1 ∧ 3 ≤ (labelVal u).2)) :=
  tenure_q_spec ["2021q3", "2020q4", "2021q1"] labelVal
    (by
      intro u hu
      fin_cases hu <;>
        exact ⟨by decide, by decide, by decide, by decide, by decide⟩)
    "2021q3" (by decide)

/-! ## Quality scorer (scripts/quality_score.py): score_stata and
score_manuscript.  Regex checks are transcribed as character-list scanners.
A Python set is modelled by its member list (first occurrences); the order
in which list(...) enumerates a set is hash-salted per CPython process and
therefore enters the manuscript scorer as an explicit argument. -/

/-- Python str whitespace characters (for strip and regex \s). -/
def isWSChar (c : Char) : Bool :=
  c = ' ' || c = '\t' || c = '\n' || c = '\r' || c = '\x0b' || c = '\x0c'

/-- Python str.strip(). -/
def stripChars (l : List Char) : List Char :=
  ((l.dropWhile isWSChar).reverse.dropWhile isWSChar).reverse

/-- Substring test (Python `in`). -/
def containsChars (pat : List Char) : List Char → Bool
  | [] => pat.isEmpty
  | c :: cs => pat.isPrefixOf (c :: cs) || containsChars pat cs

/-- Match a literal prefix, returning the remainder. -/
def matchLit : List Char → List Char → Option (List Char)
  | [], rest => some rest
  | _ :: _, [] => none
  | p :: ps, c :: cs => if c = p then matchLit ps cs else none

/-- content.split newline, as lines of characters. -/
def splitLines (s : String) : List (List Char) :=
  splitOnChar '\n' s.data

/-- Python str.lower() on a line. -/
def lowerChars (l : List Char) : List Char :=
  l.map Char.toLower

/-- re.match r"\s*version\s+\d+" against a stripped line: the literal
version, at least one whitespace, then a digit. -/
def versionLineMatch (l : List Char) : Bool :=
  match matchLit "version".data l with
  | none => false
  | some rest =>
      match rest with
      | [] => false
      | c :: cs =>
          isWSChar c &&
            (match cs.dropWhile isWSChar with
             | d :: _ => d.isDigit
             | [] => false)

/-- check_stata_version: a version declaration within the first 10 lines. -/
def check_stata_version (lines : List (List Char)) : Bool :=
  (lines.take 10).any (fun l => versionLineMatch (stripChars l))

/-- check_stata_set_more_off. -/
def check_stata_set_more_off (content : String) : Bool :=
  containsChars "set more off".data content.data

/-- check_stata_log. -/
def check_stata_log (content : String) : Bool :=
  containsChars "log using".data content.data

/-- Lines of a merge command with no _merge within the next five lines
(check_stata_unchecked_merge); i is the 1-based number of the current line. -/
def uncheckedMergeAux (all : List (List Char)) :
    List (List Char) → Nat → List Nat
  | [], _ => []
  | l :: rest, i =>
      let stripped := stripChars l
      let hit :=
        ("merge ".data.isPrefixOf stripped
            || "merge\t".data.isPrefixOf stripped)
          && ! containsChars "_merge".data
              (List.intercalate ['\n'] ((all.drop i).take 5))
      (if hit then [i] else []) ++ uncheckedMergeAux all rest (i + 1)

/-- check_stata_unchecked_merge over the whole file. -/
def check_stata_unchecked_merge (lines : List (List Char)) : List Nat :=
  uncheckedMergeAux lines lines 1

/-- One position of re.search r"save\s+.*data/" (case already lowered):
literal save, one whitespace, then data/ anywhere after; the optional
quote and dollar atoms of the source pattern match the empty string. -/
def saveDataAt (l : List Char) : Bool :=
  match matchLit "save".data l with
  | some (d :: ds) => isWSChar d && containsChars "data/".data ds
  | _ => false

/-- re.search of the save pattern anywhere in a lowered line. -/
def saveDataMatch : List Char → Bool
  | [] => false
  | c :: cs => saveDataAt (c :: cs) || saveDataMatch cs

/-- check_stata_raw_data_writes: lines saving under data/ without
data_processed (1-based line numbers). -/
def stataRawWritesAux : List (List Char) → Nat → List Nat
  | [], _ => []
  | l :: rest, i =>
      let hit := saveDataMatch (lowerChars l)
        && ! containsChars "data_processed".data l
        && ! containsChars "DATA_PROCESSED".data l
      (if hit then [i] else []) ++ stataRawWritesAux rest (i + 1)

/-- check_stata_raw_data_writes over the whole file. -/
def check_stata_raw_data_writes (lines : List (List Char)) : List Nat :=
  stataRawWritesAux lines 1

/-- One position of the Windows-path pattern: a quote, an ASCII letter,
a colon, then a slash or backslash. -/
def winPathAt : List Char → Bool
  | q :: a :: col :: sl :: _ =>
      (q = '"' || q = '\'') && a.isAlpha && col = ':'
        && (sl = '/' || sl = '\\')
  | _ => false

/-- re.search of the Windows-path pattern anywhere in a line. -/
def winPathMatch : List Char → Bool
  | [] => false
  | c :: cs => winPathAt (c :: cs) || winPathMatch cs

/-- The eight Unix-path patterns quote-slash-(Users or home or tmp or var). -/
def unixPathPats : List (List Char) :=
  [ "\"/Users".data, "\x27/Users".data, "\"/home".data, "\x27/home".data,
    "\"/tmp".data, "\x27/tmp".data, "\"/var".data, "\x27/var".data ]

/-- check_hardcoded_paths on one line: comment lines are skipped; the
Windows pattern only counts without http, and a line can contribute both
pattern hits, Windows first. -/
def hardcodedPathLine (l : List Char) (i : Nat) : List Nat :=
  let stripped := stripChars l
  if "#".data.isPrefixOf stripped || "*".data.isPrefixOf stripped
      || "//".data.isPrefixOf stripped then []
  else
    (if winPathMatch l
        && ! (containsChars "http:".data l || containsChars "https:".data l)
      then [i] else []) ++
    (if unixPathPats.any (fun p => containsChars p l) then [i] else [])

/-- check_hardcoded_paths over the whole file. -/
def hardcodedPathsAux : List (List Char) → Nat → List Nat
  | [], _ => []
  | l :: rest, i => hardcodedPathLine l i ++ hardcodedPathsAux rest (i + 1)

/-- check_hardcoded_paths (1-based line numbers). -/
def check_hardcoded_paths (lines : List (List Char)) : List Nat :=
  hardcodedPathsAux lines 1

/-- check_stata_header: the first 20 lines mention purpose and author
(case-insensitively). -/
def check_stata_header (lines : List (List Char)) : Bool :=
  let header := lowerChars (List.intercalate ['\n'] (lines.take 20))
  containsChars "purpose".data header && containsChars "author".data header

/-- One issue entry of a quality report. -/
structure Issue where
  itype : String
  description : String
  details : String
  points : Int
deriving DecidableEq, Repr

/-- The counts block of a quality report. -/
structure IssueCounts where
  critical : Nat
  major : Nat
  minor : Nat
  total : Nat
deriving DecidableEq, Repr

/-- A quality report: filepath, score, status, threshold, auto_fail flag and
the three issue lists with their counts.  (The constant thresholds entry of
the Python dict carries no data and is omitted.) -/
structure Report where
  filepath : String
  score : Int
  status : String
  threshold : String
  auto_fail : Bool
  critical : List Issue
  major : List Issue
  minor : List Issue
  counts : IssueCounts
deriving DecidableEq, Repr

/-- QualityScorer._generate_report: status and threshold from the score and
the auto-fail flag, plus the issue counts. -/
def mkReport (filepath : String) (score : Int) (auto_fail : Bool)
    (critical major minor : List Issue) : Report :=
  let status :=
    if auto_fail then "FAIL"
    else if 95 ≤ score then "EXCELLENCE"
    else if 90 ≤ score then "PR_READY"
    else if 80 ≤ score then "COMMIT_READY"
    else "BLOCKED"
  let threshold :=
    if auto_fail then "None (auto-fail)"
    else if 95 ≤ score then "excellence"
    else if 90 ≤ score then "pr"
    else if 80 ≤ score then "commit"
    else "None (below commit)"
  ⟨filepath, score, status, threshold, auto_fail, critical, major, minor,
    ⟨critical.length, major.length, minor.length,
      critical.length + major.length + minor.length⟩⟩

/-- QualityScorer.score_stata: run the checks in source order, deduct the
rubric points, clamp the score at 0, and build the report. -/
def score_stata (filepath content : String) : Report :=
  let lines := splitLines content
  let critVersion : List Issue :=
    if check_stata_version lines then []
    else [⟨"missing_version", "Missing version 19.5 declaration",
      "Add \"version 19.5\" as first line of do-file", 15⟩]
  let rawWrites := check_stata_raw_data_writes lines
  let critRaw := rawWrites.map (fun i =>
    (⟨"overwrites_raw_data",
      "Writes to raw data/ directory at line " ++ toString i,
      "Save to data_processed/ or results/ instead", 20⟩ : Issue))
  let hardPaths := check_hardcoded_paths lines
  let majPaths := hardPaths.map (fun i =>
    (⟨"hardcoded_path", "Hardcoded absolute path at line " ++ toString i,
      "Use globals for directory structure", 10⟩ : Issue))
  let majMore : List Issue :=
    if check_stata_set_more_off content then []
    else [⟨"missing_set_more_off", "Missing \"set more off\"",
      "Add \"set more off\" after version declaration", 10⟩]
  let majLog : List Issue :=
    if check_stata_log content then []
    else [⟨"missing_log", "No log file created",
      "Add log using \"logs/[script_name].log\", replace", 10⟩]
  let unchecked := check_stata_unchecked_merge lines
  let majMerge := unchecked.map (fun i =>
    (⟨"unchecked_merge", "Merge without _merge check at line " ++ toString i,
      "Add tab _merge and assert after every merge", 10⟩ : Issue))
  let minHeader : List Issue :=
    if check_stata_header lines then []
    else [⟨"missing_header", "Missing header block (purpose, author, date)",
      "Add header with title, author, date, purpose, inputs, outputs", 3⟩]
  let score : Int := 100 - 15 * critVersion.length - 20 * rawWrites.length
    - 10 * hardPaths.length - 10 * majMore.length - 10 * majLog.length
    - 10 * unchecked.length - 3 * minHeader.length
  mkReport filepath (max 0 score) false (critVersion ++ critRaw)
    (majPaths ++ majMore ++ majLog ++ majMerge) minHeader

/-- Python \w (ASCII): letters, digits, underscore. -/
def isWordChar (c : Char) : Bool :=
  c.isAlphanum || c = '_'

/-- One beginning-of-environment match of the regex backslash-begin-braced
word: the environment name and the remainder after the closing brace. -/
def tryEnvName (opener : List Char) (l : List Char) :
    Option (String × List Char) :=
  match matchLit opener l with
  | none => none
  | some rest =>
      let name := rest.takeWhile isWordChar
      if name.isEmpty then none
      else
        match rest.drop name.length with
        | c :: rest2 => if c = '\x7d' then some (String.mk name, rest2)
            else none
        | [] => none

/-- All matches of the environment pattern in a line, in finditer order.
The fuel argument (the line length) only bounds the recursion. -/
def scanEnvsAux (opener : List Char) : Nat → List Char → List String
  | 0, _ => []
  | _, [] => []
  | fuel + 1, c :: cs =>
      match tryEnvName opener (c :: cs) with
      | some (name, rest) => name :: scanEnvsAux opener fuel rest
      | none => scanEnvsAux opener fuel cs

/-- All backslash-begin environment names of a line. -/
def scanBegins (l : List Char) : List String :=
  scanEnvsAux "\\begin\x7b".data l.length l

/-- All backslash-end environment names of a line. -/
def scanEnds (l : List Char) : List String :=
  scanEnvsAux "\\end\x7b".data l.length l

/-- Process the backslash-end matches of one line against the environment
stack (head = most recently opened), collecting issues in order. -/
def processEnds (i : Nat) : List String → List (String × Nat) →
    List (Nat × String) → List (String × Nat) × List (Nat × String)
  | [], stack, issues => (stack, issues)
  | name :: rest, stack, issues =>
      match stack with
      | top :: stk =>
          if top.1 = name then processEnds i rest stk issues
          else processEnds i rest (top :: stk) (issues ++
            [(i, "Mismatched environment: \\end\x7b" ++ name
              ++ "\x7d but expected \\end\x7b" ++ top.1
              ++ "\x7d (opened at line " ++ toString top.2 ++ ")")])
      | [] => processEnds i rest [] (issues ++
          [(i, "\\end\x7b" ++ name ++ "\x7d without matching \\begin")])

/-- check_latex_syntax line loop: per line, the part before a percent sign,
all begins pushed, then all ends processed. -/
def latexEnvAux : List (List Char) → Nat → List (String × Nat) →
    List (Nat × String) → List (String × Nat) × List (Nat × String)
  | [], _, stack, issues => (stack, issues)
  | l :: rest, i, stack, issues =>
      let stripped := if containsChars ['%'] l
        then (splitOnChar '%' l).headD l else l
      let stack1 := (scanBegins stripped).foldl
        (fun st n => (n, i) :: st) stack
      let (stack2, issues2) := processEnds i (scanEnds stripped) stack1 issues
      latexEnvAux rest (i + 1) stack2 issues2

/-- check_latex_syntax: environment mismatch issues, then unclosed
environments in opening order. -/
def latexEnvIssues (lines : List (List Char)) : List (Nat × String) :=
  let (stack, issues) := latexEnvAux lines 1 [] []
  issues ++ stack.reverse.map (fun p =>
    (p.2, "Unclosed environment: \\begin\x7b" ++ p.1 ++ "\x7d never closed"))

/-- Lowercase ASCII letter (regex [a-z]). -/
def isLowerAZ (c : Char) : Bool :=
  'a' ≤ c && c ≤ 'z'

/-- One match of the cite pattern backslash-cite, lowercase letters, then a
braced non-empty key group: the group and the remainder. -/
def tryCite (l : List Char) : Option (List Char × List Char) :=
  match matchLit "\\cite".data l with
  | none => none
  | some rest =>
      let rest1 := rest.dropWhile isLowerAZ
      match rest1 with
      | c :: rest2 =>
          if c = '\x7b' then
            let grp := rest2.takeWhile (fun d => d ≠ '\x7d')
            if grp.isEmpty then none
            else
              match rest2.drop grp.length with
              | d :: rest3 => if d = '\x7d' then some (grp, rest3) else none
              | [] => none
          else none
      | [] => none

/-- All cite key groups of the manuscript, in finditer order. -/
def scanCitesAux : Nat → List Char → List (List Char)
  | 0, _ => []
  | _, [] => []
  | fuel + 1, c :: cs =>
      match tryCite (c :: cs) with
      | some (grp, rest) => grp :: scanCitesAux fuel rest
      | none => scanCitesAux fuel cs

/-- The cited keys: every group split on commas, each key stripped. -/
def citedKeys (content : List Char) : List String :=
  ((scanCitesAux content.length content).map
    (fun grp => (splitOnChar ',' grp).map
      (fun k => String.mk (stripChars k)))).flatten

/-- First-occurrence deduplication: the member list of a Python set built
by successive updates.  This fixes only which keys are members, each once;
the order in which CPython enumerates the set is not this order (it is
hash-salted per process) and is kept as a separate argument below. -/
def dedupFirstAux (seen : List String) : List String → List String
  | [] => []
  | x :: xs =>
      if x ∈ seen then dedupFirstAux seen xs
      else x :: dedupFirstAux (x :: seen) xs

/-- The distinct elements of a key list, first occurrences first. -/
def dedupFirst (l : List String) : List String :=
  dedupFirstAux [] l

/-- One match of the bibliography entry pattern at-word-brace-key-comma:
the key and the remainder. -/
def tryBibKey (l : List Char) : Option (List Char × List Char) :=
  match l with
  | '@' :: rest =>
      let w := rest.takeWhile isWordChar
      if w.isEmpty then none
      else
        match rest.drop w.length with
        | c :: rest2 =>
            if c = '\x7b' then
              let key := rest2.takeWhile (fun d => d ≠ ',')
              if key.isEmpty then none
              else
                match rest2.drop key.length with
                | d :: rest3 => if d = ',' then some (key, rest3) else none
                | [] => none
            else none
        | [] => none
  | _ => none

/-- All bibliography keys of a .bib file, in finditer order. -/
def scanBibKeysAux : Nat → List Char → List (List Char)
  | 0, _ => []
  | _, [] => []
  | fuel + 1, c :: cs =>
      match tryBibKey (c :: cs) with
      | some (key, rest) => key :: scanBibKeysAux fuel rest
      | none => scanBibKeysAux fuel cs

/-- check_broken_citations: the set of cited keys missing from the
bibliography; with no bibliography file, every cited key.  Both branches
return list(...) of a set: setOrder is the enumeration order of that set in
the current process (hash-salted in CPython), applied to its member list. -/
def checkBrokenCitations (setOrder : List String → List String)
    (content : List Char) (bib : Option (List Char)) : List String :=
  let cited := dedupFirst (citedKeys content)
  match bib with
  | none => setOrder cited
  | some b =>
      let bibKeys := (scanBibKeysAux b.length b).map String.mk
      setOrder (cited.filter (fun k => k ∉ bibKeys))

/-- Split on a non-empty literal separator, Python str.split; the fuel
argument (the list length) only bounds the recursion. -/
def splitOnListAux (sep : List Char) : Nat → List Char → List (List Char)
  | _, [] => [[]]
  | 0, l => [l]
  | fuel + 1, c :: cs =>
      if sep.isPrefixOf (c :: cs) then
        [] :: splitOnListAux sep fuel ((c :: cs).drop sep.length)
      else
        match splitOnListAux sep fuel cs with
        | [] => [[c]]
        | h :: t => (c :: h) :: t

/-- Python str.split on a separator string. -/
def splitOnList (sep l : List Char) : List (List Char) :=
  splitOnListAux sep l.length l

/-- Python str.count of a non-overlapping separator. -/
def countSub (sep l : List Char) : Nat :=
  (splitOnList sep l).length - 1

/-- The five display math environment names of check_equation_overflow. -/
def mathEnvNames : List String :=
  ["equation", "align", "gather", "multline", "eqnarray"]

/-- re.match of the begin-display-math pattern (optional star). -/
def envBeginMatch (l : List Char) : Bool :=
  mathEnvNames.any (fun n =>
    ("\\begin\x7b" ++ n ++ "\x7d").data.isPrefixOf l
      || ("\\begin\x7b" ++ n ++ "*\x7d").data.isPrefixOf l)

/-- re.match of the end-display-math pattern (optional star). -/
def envEndMatch (l : List Char) : Bool :=
  mathEnvNames.any (fun n =>
    ("\\end\x7b" ++ n ++ "\x7d").data.isPrefixOf l
      || ("\\end\x7b" ++ n ++ "*\x7d").data.isPrefixOf l)

/-- check_equation_overflow for one line: the new (in_math, math_delim)
state and the overflow line numbers contributed by this line. -/
def eqOverflowLine (i : Nat) (line : List Char) (st : Bool × Option String) :
    (Bool × Option String) × List Nat :=
  let stripped := stripChars line
  let inMath := st.1
  let delim := st.2
  if containsChars "$$".data stripped && delim ≠ some "env" then
    if ! inMath then
      if 2 ≤ countSub "$$".data stripped then
        let inner := ((splitOnList "$$".data stripped).drop 1).headD []
        ((false, none), if 120 < (stripChars inner).length then [i] else [])
      else ((true, some "$$"), [])
    else ((false, none), [])
  else if envBeginMatch stripped && ! inMath then ((true, some "env"), [])
  else if envEndMatch stripped then ((false, none), [])
  else if inMath then
    let codePart := if containsChars ['%'] line
      then (splitOnChar '%' line).headD line else line
    ((inMath, delim), if 120 < (stripChars codePart).length then [i] else [])
  else ((inMath, delim), [])

/-- check_equation_overflow line loop. -/
def eqOverflowAux : List (List Char) → Nat → Bool × Option String → List Nat
  | [], _, _ => []
  | l :: rest, i, st =>
      let (st2, hits) := eqOverflowLine i l st
      hits ++ eqOverflowAux rest (i + 1) st2

/-- check_equation_overflow: 1-based lines at risk of overfull display
math. -/
def checkEquationOverflow (lines : List (List Char)) : List Nat :=
  eqOverflowAux lines 1 (false, none)

/-- pathlib parent of a slash-separated path (enough of Path.parent for the
bibliography resolution: the path with its final component removed, "." for
a bare file name). -/
def parentDir (s : String) : String :=
  match (splitOnChar '/' s.data).dropLast with
  | [] => "."
  | parts => String.mk (List.intercalate ['/'] parts)

/-- The first bibliography candidate filepath.parent/references.bib. -/
def bibPath1 (fp : String) : String :=
  parentDir fp ++ "/references.bib"

/-- The second candidate filepath.parent.parent/Overleaf/references.bib. -/
def bibPath2 (fp : String) : String :=
  parentDir (parentDir fp) ++ "/Overleaf/references.bib"

/-- The auto-fail report of score_manuscript: every LaTeX environment issue
as a critical compilation_failure, score 0. -/
def manuscriptEnvReport (filepath : String)
    (envIssues : List (Nat × String)) : Report :=
  mkReport filepath 0 true
    (envIssues.map (fun p =>
      (⟨"compilation_failure",
        "LaTeX syntax issue at line " ++ toString p.1, p.2, 100⟩ : Issue)))
    [] []

/-- The non-auto-fail report of score_manuscript: undefined citations cost
15 each, potential equation overflows cost 5 each, clamped at 0. -/
def manuscriptMainReport (filepath : String) (broken : List String)
    (overflows : List Nat) : Report :=
  let critCite := broken.map (fun k =>
    (⟨"undefined_citation", "Citation key not in bibliography: " ++ k,
      "Add to Overleaf/references.bib or fix key", 15⟩ : Issue))
  let majOver := overflows.map (fun i =>
    (⟨"overfull_hbox", "Potential equation overflow at line " ++ toString i,
      "Single equation line >120 chars may cause overfull hbox", 5⟩ : Issue))
  let score : Int := 100 - 15 * broken.length - 5 * overflows.length
  mkReport filepath (max 0 score) false critCite majOver []

/-- The bibliography file used: the first candidate if it exists, else the
second (source lines 515-517). -/
def bibChoice (bib1 bib2 : Option String) : Option String :=
  match bib1 with
  | some b => some b
  | none => bib2

/-- QualityScorer.score_manuscript given the contents of the two candidate
bibliography files (none = file absent) and the process's set enumeration
order: LaTeX environment issues auto-fail with score 0; otherwise undefined
citations cost 15 and potential equation overflows cost 5, clamped at 0. -/
def score_manuscript_core (filepath content : String)
    (bib1 bib2 : Option String)
    (setOrder : List String → List String) : Report :=
  let lines := splitLines content
  let envIssues := latexEnvIssues lines
  if ! envIssues.isEmpty then
    manuscriptEnvReport filepath envIssues
  else
    manuscriptMainReport filepath
      (checkBrokenCitations setOrder content.data
        ((bibChoice bib1 bib2).map (·.data)))
      (checkEquationOverflow lines)

/-- score_manuscript reading the bibliography candidates from the
filesystem, in a process whose set enumeration order is setOrder. -/
def score_manuscript (filepath content : String)
    (fs : String → Option String)
    (setOrder : List String → List String) : Report :=
  score_manuscript_core filepath content (fs (bibPath1 filepath))
    (fs (bibPath2 filepath)) setOrder

/-- One scorer invocation on a Stata do-file: read the file from the
filesystem state, score its content. -/
def runScoreStata (fp : String) (fs : String → Option String) :
    Option Report :=
  (fs fp).map (fun content => score_stata fp content)

/-- One scorer invocation on a manuscript: read the file, score it against
the bibliography found in the same filesystem state, with the invoking
process's set enumeration order. -/
def runScoreManuscript (fp : String) (fs : String → Option String)
    (setOrder : List String → List String) : Option Report :=
  (fs fp).map (fun content => score_manuscript fp content fs setOrder)

/-- Reports equal except possibly for the order of the critical issue
list: same filepath, score, status, threshold, auto_fail flag, counts, and
major and minor lists; the critical lists are permutations of each other. -/
def ReportEquivUpToCritOrder (r1 r2 : Report) : Prop :=
  r1.filepath = r2.filepath ∧ r1.score = r2.score ∧ r1.status = r2.status ∧
  r1.threshold = r2.threshold ∧ r1.auto_fail = r2.auto_fail ∧
  r1.critical.Perm r2.critical ∧ r1.major = r2.major ∧
  r1.minor = r2.minor ∧ r1.counts = r2.counts

/-- ReportEquivUpToCritOrder lifted to optional reports. -/
def OptReportEquiv : Option Report → Option Report → Prop
  | none, none => True
  | some a, some b => ReportEquivUpToCritOrder a b
  | _, _ => False

/-- A concrete filesystem holding one manuscript with two cited keys and no
bibliography file. -/
def fsC : String → Option String :=
  fun p => if p = "m.tex" then some "\\cite\x7balpha\x7d \\cite\x7bbeta\x7d"
    else none

/-- Counterexample to C8 as stated: the identity and the reversal are both
admissible enumerations of the set of undefined citation keys (each is a
permutation of the members), yet the two invocations of the scorer on the
same manuscript — same file content, same absent bibliography — produce
different reports: with two undefined citations the critical issue list
comes out in a different order. -/
theorem citation_order_nondeterminism :
    (∀ l : List String, ((fun l => l) l).Perm l) ∧
    (∀ l : List String, ((fun l : List String => l.reverse) l).Perm l) ∧
    runScoreManuscript "m.tex" fsC (fun l => l)
      ≠ runScoreManuscript "m.tex" fsC (fun l => l.reverse) := by
  refine ⟨fun l => List.Perm.refl l, fun l => l.reverse_perm, ?_⟩
  decide

theorem mkReport_equiv (fp : String) (sc : Int) (af : Bool)
    (c1 c2 m1 m2 n1 n2 : List Issue) (hc : c1.Perm c2) (hm : m1 = m2)
    (hn : n1 = n2) :
    ReportEquivUpToCritOrder (mkReport fp sc af c1 m1 n1)
      (mkReport fp sc af c2 m2 n2) := by
  subst hm
  subst hn
  exact ⟨rfl, rfl, rfl, rfl, rfl, hc, rfl, rfl, by
    simp [mkReport, hc.length_eq]⟩

theorem checkBrokenCitations_perm (o1 o2 : List String → List String)
    (ho1 : ∀ l, (o1 l).Perm l) (ho2 : ∀ l, (o2 l).Perm l)
    (content : List Char) (bib : Option (List Char)) :
    (checkBrokenCitations o1 content bib).Perm
      (checkBrokenCitations o2 content bib) := by
  cases bib with
  | none => exact (ho1 _).trans (ho2 _).symm
  | some b => exact (ho1 _).trans (ho2 _).symm

theorem manuscriptMainReport_equiv (fp : String) (broken1 broken2 : List String)
    (overflows : List Nat) (hperm : broken1.Perm broken2) :
    ReportEquivUpToCritOrder (manuscriptMainReport fp broken1 overflows)
      (manuscriptMainReport fp broken2 overflows) := by
  rw [manuscriptMainReport, manuscriptMainReport, hperm.length_eq]
  exact mkReport_equiv _ _ _ _ _ _ _ _ _ (hperm.map _) rfl rfl

theorem score_manuscript_core_equiv (fp c : String) (b1 b2 : Option String)
    (o1 o2 : List String → List String)
    (ho1 : ∀ l, (o1 l).Perm l) (ho2 : ∀ l, (o2 l).Perm l) :
    ReportEquivUpToCritOrder (score_manuscript_core fp c b1 b2 o1)
      (score_manuscript_core fp c b1 b2 o2) := by
  rw [score_manuscript_core, score_manuscript_core]
  by_cases he : (latexEnvIssues (splitLines c)).isEmpty
  · rw [if_neg (by simp [he]), if_neg (by simp [he])]
    exact manuscriptMainReport_equiv fp _ _ _
      (checkBrokenCitations_perm o1 o2 ho1 ho2 _ _)
  · rw [if_pos (by simp [he]), if_pos (by simp [he])]
    exact ⟨rfl, rfl, rfl, rfl, rfl, List.Perm.refl _, rfl, rfl, rfl⟩

/-- C8 amended: for fixed file content (and fixed bibliography content), two
invocations of the scorer produce reports identical up to the enumeration
order of the set of undefined citation keys (hash-salted per CPython
process): Stata reports are fully identical, and manuscript reports have
the same score, status, threshold, auto_fail flag, counts, and major and
minor issue lists, with critical issue lists that are permutations of each
other. -/
theorem quality_score_deterministic_up_to_citation_order
    (fpS fpM : String) (fs1 fs2 : String → Option String)
    (o1 o2 : List String → List String)
    (ho1 : ∀ l, (o1 l).Perm l) (ho2 : ∀ l, (o2 l).Perm l)
    (hS : fs1 fpS = fs2 fpS) (hM : fs1 fpM = fs2 fpM)
    (hb1 : fs1 (bibPath1 fpM) = fs2 (bibPath1 fpM))
    (hb2 : fs1 (bibPath2 fpM) = fs2 (bibPath2 fpM)) :
    runScoreStata fpS fs1 = runScoreStata fpS fs2 ∧
    OptReportEquiv (runScoreManuscript fpM fs1 o1)
      (runScoreManuscript fpM fs2 o2) := by
  constructor
  · rw [runScoreStata, runScoreStata, hS]
  · rw [runScoreManuscript, runScoreManuscript, hM]
    cases fs2 fpM with
    | none => exact trivial
    | some content =>
        simp only [Option.map_some']
        show ReportEquivUpToCritOrder _ _
        rw [score_manuscript, score_manuscript, hb1, hb2]
        exact score_manuscript_core_equiv fpM content _ _ o1 o2 ho1 ho2

/-- A concrete filesystem with one do-file and one manuscript. -/
def fsA : String → Option String :=
  fun p => if p = "m.tex" then some "\\cite\x7bkalyani2025\x7d"
    else if p = "a.do" then some "version 19" else none

/-- The same filesystem except for one unrelated path. -/
def fsB : String → Option String :=
  fun p => if p = "unrelated.txt" then some "x" else fsA p

/-- Witness for determinism up to citation order: two filesystem states
agreeing on the scored files, one process enumerating sets forward and the
other in reverse. -/
theorem quality_score_deterministic_up_to_citation_order_witness :
    runScoreStata "a.do" fsA = runScoreStata "a.do" fsB ∧
    OptReportEquiv (runScoreManuscript "m.tex" fsA (fun l => l))
      (runScoreManuscript "m.tex" fsB (fun l => l.reverse)) :=
  quality_score_deterministic_up_to_citation_order "a.do" "m.tex" fsA fsB
    (fun l => l) (fun l => l.reverse)
    (fun l => List.Perm.refl l) (fun l => l.reverse_perm) rfl rfl rfl rfl

end PanelPipeline
